import Mathlib

/-!
Shallow embedding of cvec2 (src/cvec2.c, src/cvec2.h): a generic contiguous
vector with a movable start offset.

The model works at element-slot granularity on an LP64 platform: size_t has
64 bits (modulus WSIZE) and unsigned int has 32 bits (modulus WUINT, the type
of the local variable addition in _vec2_create_hole).  The buffer state
mirrors struct _vec2_impl_struct: size, capacity, _idx[0], _start and data.
In the C code the data pointer always equals base_allocation + _start *
el_size, so the model keeps the allocation contents as a list of element
slots (mem) and represents data == NULL as mem = none.  realloc success is
decided by an allocator oracle applied to the requested byte count; slots
exposed by growth hold a fixed pad value (the C code leaves them
indeterminate).  memmove/memcpy act on whole element slots; accesses past
the end of the allocation, which are undefined behaviour in C, are clipped
by the model.
-/

namespace Cvec2

/-- Modulus of size_t on the modelled (LP64) platform. -/
def WSIZE : Nat := 2 ^ 64

/-- Modulus of unsigned int on the modelled (LP64) platform. -/
def WUINT : Nat := 2 ^ 32

/-- VEC2_INITIAL_CAPACITY from cvec2.c. -/
def VEC2_INITIAL_CAPACITY : Nat := 8

/-- Wrapping size_t subtraction a - b (both arguments reduced mod WSIZE). -/
def wsub (a b : Nat) : Nat := (WSIZE + a % WSIZE - b % WSIZE) % WSIZE

/-- Mirror of struct _vec2_impl_struct (VEC2_BODY): size, capacity, _idx[0],
_start, data.  mem = none models data == NULL; mem = some l models an
allocation whose slots are the elements of l. -/
structure Vec2 (α : Type) where
  size : Nat
  capacity : Nat
  idx0 : Nat
  start : Nat
  mem : Option (List α)
deriving Repr, DecidableEq

/-- The zeroed buffer state produced by _vec2_impl_init / _vec2_clear. -/
def emptyVec {α : Type} : Vec2 α := ⟨0, 0, 0, 0, none⟩

/-- Mirror of the _vec2_impl_valid macro in cvec2.h:
(!capacity && data == NULL) || (size <= capacity). -/
def vec2_valid {α : Type} (v : Vec2 α) : Bool :=
  (v.capacity == 0 && v.mem.isNone) || decide (v.size ≤ v.capacity)

/-- Contiguous run of n slots of l beginning at slot a. -/
def slice {α : Type} (l : List α) (a n : Nat) : List α := (l.drop a).take n

/-- Logical content of the buffer: the size live slots starting at _start. -/
def content {α : Type} (v : Vec2 α) : List α := slice (v.mem.getD []) v.start v.size

/-- Well-formedness of a buffer state, i.e. the spec's section-3 invariants
together with consistency of the modelled allocation: the live range fits in
the capacity, the capacity fits in size_t, and the allocation exists exactly
when the capacity is non-zero and has at least capacity slots. -/
def wf {α : Type} (v : Vec2 α) : Bool :=
  decide (v.start + v.size ≤ v.capacity) && decide (v.capacity < WSIZE) &&
    (match v.mem with
     | none => v.capacity == 0 && v.start == 0
     | some l => decide (v.capacity ≤ l.length) && v.capacity != 0)

/-- Model of memmove/memcpy writing the run xs at slot pos of l.  The
allocation length never changes; any part of xs that would land past the end
of l (undefined behaviour in C) is clipped. -/
def writeAt {α : Type} (l : List α) (pos : Nat) (xs : List α) : List α :=
  l.take pos ++ xs.take (l.length - pos) ++ l.drop (pos + xs.length)

/-- Model of memmove copying cnt slots from slot src of l to slot dst.
Overlap is handled as-if through a temporary, which is memmove semantics. -/
def memmoveSlots {α : Type} (l : List α) (dst src cnt : Nat) : List α :=
  writeAt l dst (slice l src cnt)

/-- Net effect of the chunked byte-wise exchange in _vec2_impl_swap on two
slots.  The VEC2_SWAP_SIZE-chunk loop swaps all el_size bytes of the two
elements, which at slot granularity exchanges the slots. -/
def swapSlots {α : Type} (l : List α) (i j : Nat) : List α :=
  match l.get? i, l.get? j with
  | some a, some b => (l.set i b).set j a
  | _, _ => l

/-- Insertion of an element into a list sorted by a three-way comparator. -/
def insertSorted {α : Type} (cmp : α → α → Int) (a : α) : List α → List α
  | [] => [a]
  | b :: t => if cmp a b ≤ 0 then a :: b :: t else b :: insertSorted cmp a t

/-- Comparison sort by a three-way comparator; stands in for qsort, whose
exact output order on tied keys is implementation-defined. -/
def sortByCmp {α : Type} (cmp : α → α → Int) : List α → List α
  | [] => []
  | a :: t => insertSorted cmp a (sortByCmp cmp t)

/-- Mirror of _vec2_reserve (cvec2.c lines 54-90).  alloc is the allocator
oracle judging the realloc call on alloc_size bytes; pad fills slots exposed
by growth.  realloc operates on the true base pointer (mem), and on success
data is recomputed as new base + el_size * _start, i.e. start is kept. -/
def vec2_reserve {α : Type} (alloc : Nat → Bool) (pad : α) (v : Vec2 α)
    (additional elSize : Nat) : Bool × Vec2 α :=
  if wsub v.capacity v.size < additional then
    let new_capacity := (v.capacity + additional) % WSIZE
    if new_capacity < v.capacity then (false, v)
    else
      let alloc_size := (new_capacity * elSize) % WSIZE
      if alloc_size / elSize != new_capacity then (false, v)
      else if alloc alloc_size then
        let old := v.mem.getD []
        (true, { v with
          mem := some (old.take new_capacity ++
            List.replicate (new_capacity - old.length) pad),
          capacity := new_capacity })
      else (false, v)
  else (true, v)

/-- Mirror of the growth-sizing loop of _vec2_create_hole (cvec2.c lines
105-119).  addition is the C unsigned int local, so every step of
(addition << 1) + (addition >> 1) is reduced mod WUINT and the assignment
addition = len truncates len mod WUINT.  The loop can fail to terminate
(e.g. addition = 0 with len > 0), which the fuel models as none. -/
def growAddition (len : Nat) : Nat → Nat → Option Nat
  | 0, _ => none
  | fuel + 1, addition =>
    if addition < len then
      let next := (addition * 2 + addition / 2) % WUINT
      if next < addition then some (len % WUINT)
      else growAddition len fuel next
    else some addition

/-- Mirror of the reserve-retry loop of _vec2_create_hole (cvec2.c lines
122-133): try to reserve addition elements, and on failure retry with
progressively smaller additions (down to exactly len) before giving up. -/
def reserveRetry {α : Type} (alloc : Nat → Bool) (pad : α) (len elSize : Nat) :
    Nat → Vec2 α → Nat → Option (Bool × Vec2 α)
  | 0, _, _ => none
  | fuel + 1, v, addition =>
    match vec2_reserve alloc pad v addition elSize with
    | (true, v1) => some (true, v1)
    | (false, _) =>
      if len < addition ∧ addition / 2 < len then
        reserveRetry alloc pad len elSize fuel v (len % WUINT)
      else if addition / 2 < len then some (false, v)
      else reserveRetry alloc pad len elSize fuel v (addition / 2)

/-- Mirror of the placement phase of _vec2_create_hole (cvec2.c lines
136-169): front extension, back extension, or the two-phase shift.  All
positions are absolute slot indices of the allocation; the C data pointer is
base + start slots, so VEC2_GET(vec, el, k) is slot start + k. -/
def placeHole {α : Type} (v : Vec2 α) (idx len : Nat) : Vec2 α :=
  if 0 < v.size then
    if idx = 0 ∧ len ≤ v.start then
      { v with start := v.start - len }
    else if idx < v.size ∨ wsub v.capacity ((v.start + v.size) % WSIZE) < len then
      let shift_back := if idx = v.size ∨ v.start < len then v.start else len
      let start1 := v.start - shift_back
      let mem1 := v.mem.map fun l =>
        let l1 := memmoveSlots l start1 (start1 + shift_back) idx
        if idx < v.size ∧ shift_back < len then
          memmoveSlots l1 (start1 + idx + len) (start1 + idx + shift_back)
            (len - shift_back)
        else l1
      { v with start := start1, mem := mem1 }
    else v
  else v

/-- Initial value of the unsigned int variable addition in _vec2_create_hole
(cvec2.c line 105): half the capacity truncated to unsigned int, or
VEC2_INITIAL_CAPACITY for an unallocated buffer. -/
def growStart (capacity : Nat) : Nat :=
  if capacity != 0 then (capacity / 2) % WUINT else VEC2_INITIAL_CAPACITY

/-- Mirror of _vec2_create_hole (cvec2.c lines 92-172).  A none result
models a call that does not terminate (or exceeds the fuel). -/
def vec2_create_hole {α : Type} (alloc : Nat → Bool) (pad : α) (fuel : Nat)
    (v : Vec2 α) (idx len elSize : Nat) : Option (Bool × Vec2 α) :=
  if len = 0 ∨ v.size < idx ∨ (v.size + len) % WSIZE < v.size then
    some (false, v)
  else
    let grown : Option (Bool × Vec2 α) :=
      if v.capacity < v.size + len then
        match growAddition len fuel (growStart v.capacity) with
        | none => none
        | some addition => reserveRetry alloc pad len elSize fuel v addition
      else some (true, v)
    match grown with
    | none => none
    | some (false, v1) => some (false, v1)
    | some (true, v1) => some (true, placeHole v1 idx len)

/-- Mirror of _vec2_remove (cvec2.c lines 174-213).  The third component
models the optional out buffer: wantOut = true is a non-null opt_out_val and
the copied-out run is returned as some run. -/
def vec2_remove {α : Type} (wantOut : Bool) (v : Vec2 α) (idx len : Nat) :
    Bool × Vec2 α × Option (List α) :=
  if v.size < len ∨ wsub v.size len < idx then (false, v, none)
  else if 0 < len then
    let out : Option (List α) :=
      if wantOut then some (slice (v.mem.getD []) (v.start + idx) len) else none
    if 0 < v.size - len then
      if idx = 0 then
        (true, { v with size := v.size - len, start := v.start + len }, out)
      else if idx < v.size - len then
        let mem1 := v.mem.map fun l =>
          memmoveSlots l (v.start + idx) (v.start + idx + len) (v.size - len - idx)
        (true, { v with size := v.size - len, mem := mem1 }, out)
      else (true, { v with size := v.size - len }, out)
    else (true, { v with size := v.size - len }, out)
  else (true, v, none)

/-- Mirror of _vec2_impl_reserve (cvec2.c lines 237-245). -/
def vec2_impl_reserve {α : Type} (alloc : Nat → Bool) (pad : α) (v : Vec2 α)
    (additional elSize : Nat) : Bool × Vec2 α :=
  if !vec2_valid v || elSize == 0 then (false, v)
  else vec2_reserve alloc pad v additional elSize

/-- Mirror of _vec2_impl_shrink (cvec2.c lines 247-290), including the
compaction to offset 0 before the shrinking realloc and the final
assignment capacity = vec2_size(vec_ptr). -/
def vec2_impl_shrink {α : Type} (alloc : Nat → Bool) (pad : α) (v : Vec2 α)
    (elSize : Nat) : Bool × Vec2 α :=
  if !vec2_valid v || elSize == 0 then (false, v)
  else if v.size = 0 then (true, emptyVec)
  else if v.size < v.capacity ∧ VEC2_INITIAL_CAPACITY < v.capacity then
    let new_capacity :=
      if VEC2_INITIAL_CAPACITY < v.size then v.size else VEC2_INITIAL_CAPACITY
    let v1 :=
      if 0 < v.start then
        { v with start := 0,
                 mem := v.mem.map fun l => memmoveSlots l 0 v.start v.size }
      else v
    if alloc ((new_capacity * elSize) % WSIZE) then
      let mem1 := v1.mem.map fun l =>
        l.take new_capacity ++ List.replicate (new_capacity - l.length) pad
      (true, { v1 with capacity := v1.size, mem := mem1 })
    else (false, v1)
  else (true, v)

/-- Mirror of _vec2_impl_create_hole (cvec2.c lines 292-303): validity and
argument guards, the core call, and _idx[0] = idx on success. -/
def vec2_impl_create_hole {α : Type} (alloc : Nat → Bool) (pad : α) (fuel : Nat)
    (v : Vec2 α) (idx len elSize : Nat) : Option (Bool × Vec2 α) :=
  if !vec2_valid v || len == 0 || elSize == 0 then some (false, v)
  else
    match vec2_create_hole alloc pad fuel v idx len elSize with
    | none => none
    | some (false, v1) => some (false, v1)
    | some (true, v1) => some (true, { v1 with idx0 := idx })

/-- Mirror of _vec2_impl_swap (cvec2.c lines 305-339). -/
def vec2_impl_swap {α : Type} (v : Vec2 α) (first second elSize : Nat) :
    Bool × Vec2 α :=
  if !vec2_valid v || decide (v.size ≤ first) || decide (v.size ≤ second) ||
      elSize == 0 then (false, v)
  else if first != second then
    (true, { v with
      mem := v.mem.map fun l => swapSlots l (v.start + first) (v.start + second) })
  else (true, v)

/-- Mirror of _vec2_impl_sort (cvec2.c lines 341-355).  cmp = none models a
null comparer pointer; qsort over the live range is modelled by sortByCmp. -/
def vec2_impl_sort {α : Type} (cmp : Option (α → α → Int)) (v : Vec2 α)
    (elSize : Nat) : Bool × Vec2 α :=
  if !vec2_valid v || cmp.isNone || elSize == 0 then (false, v)
  else if 0 < v.size then
    (true, { v with
      mem := v.mem.map fun l =>
        writeAt l v.start (sortByCmp (cmp.getD fun _ _ => 0) (slice l v.start v.size)) })
  else (true, v)

/-- Mirror of _vec2_impl_assign (cvec2.c lines 357-367).  val = none models
a null values pointer. -/
def vec2_impl_assign {α : Type} (v : Vec2 α) (idx : Nat) (val : Option (List α))
    (len elSize : Nat) : Bool × Vec2 α :=
  if !vec2_valid v || val.isNone || elSize == 0 || decide (v.size ≤ idx) ||
      decide (wsub v.size idx < len) then (false, v)
  else
    (true, { v with
      mem := v.mem.map fun l => writeAt l (v.start + idx) ((val.getD []).take len) })

/-- Mirror of _vec2_impl_remove (cvec2.c lines 369-377). -/
def vec2_impl_remove {α : Type} (wantOut : Bool) (v : Vec2 α)
    (idx len elSize : Nat) : Bool × Vec2 α × Option (List α) :=
  if !vec2_valid v || elSize == 0 then (false, v, none)
  else vec2_remove wantOut v idx len

/-- Mirror of _vec2_impl_insert (cvec2.c lines 379-399): create the hole,
memcpy len elements of val into slots start + idx .., then size += len (the
entry guard of _vec2_create_hole rules out wrap of size + len). -/
def vec2_impl_insert {α : Type} (alloc : Nat → Bool) (pad : α) (fuel : Nat)
    (v : Vec2 α) (idx : Nat) (val : Option (List α)) (len elSize : Nat) :
    Option (Bool × Vec2 α) :=
  if !vec2_valid v || val.isNone || elSize == 0 then some (false, v)
  else if 0 < len then
    match vec2_create_hole alloc pad fuel v idx len elSize with
    | none => none
    | some (false, v1) => some (false, v1)
    | some (true, v1) =>
      let mem1 := v1.mem.map fun l => writeAt l (v1.start + idx) ((val.getD []).take len)
      some (true, { v1 with size := v1.size + len, mem := mem1 })
  else some (true, v)

/-- Mirror of _vec2_impl_clear (cvec2.c lines 401-407). -/
def vec2_impl_clear {α : Type} (v : Vec2 α) : Vec2 α :=
  if vec2_valid v then emptyVec else v

/-- Public mutating operations of the engine, with their per-call arguments
(element size is supplied at every call and never stored). -/
inductive Op (α : Type) where
  | reserveOp (additional elSize : Nat)
  | shrinkOp (elSize : Nat)
  | createHoleOp (idx len elSize : Nat)
  | insertOp (idx : Nat) (val : Option (List α)) (len elSize : Nat)
  | removeOp (wantOut : Bool) (idx len elSize : Nat)
  | swapOp (first second elSize : Nat)
  | sortOp (cmp : Option (α → α → Int)) (elSize : Nat)
  | assignOp (idx : Nat) (val : Option (List α)) (len elSize : Nat)

/-- One public operation applied to a buffer state.  none models a call that
does not return (the growth-sizing loop of _vec2_create_hole can loop
forever). -/
def stepOp {α : Type} (alloc : Nat → Bool) (pad : α) (fuel : Nat) (v : Vec2 α) :
    Op α → Option (Bool × Vec2 α)
  | Op.reserveOp additional elSize => some (vec2_impl_reserve alloc pad v additional elSize)
  | Op.shrinkOp elSize => some (vec2_impl_shrink alloc pad v elSize)
  | Op.createHoleOp idx len elSize => vec2_impl_create_hole alloc pad fuel v idx len elSize
  | Op.insertOp idx val len elSize => vec2_impl_insert alloc pad fuel v idx val len elSize
  | Op.removeOp wantOut idx len elSize =>
    some ((vec2_impl_remove wantOut v idx len elSize).1,
      (vec2_impl_remove wantOut v idx len elSize).2.1)
  | Op.swapOp first second elSize => some (vec2_impl_swap v first second elSize)
  | Op.sortOp cmp elSize => some (vec2_impl_sort cmp v elSize)
  | Op.assignOp idx val len elSize => some (vec2_impl_assign v idx val len elSize)

/-- Buffer [1, 2, 3, 4, 5] with capacity 8 and no front slack (fresh pushes). -/
def bufFive : Vec2 Nat := ⟨5, 8, 0, 0, some [1, 2, 3, 4, 5, 0, 0, 0]⟩

/-- Buffer [4, 5] with capacity 64 and no front slack. -/
def bufShrink : Vec2 Nat := ⟨2, 64, 0, 0, some ([4, 5] ++ List.replicate 62 0)⟩

/-- Buffer [5, 6] with capacity 64 and front slack of one slot. -/
def bufSlack : Vec2 Nat := ⟨2, 64, 0, 1, some (0 :: 5 :: 6 :: List.replicate 61 0)⟩

/-- Buffer [10, 20, 30] with capacity 8 and front slack of two slots. -/
def bufThree : Vec2 Nat := ⟨3, 8, 0, 2, some [0, 0, 10, 20, 30, 0, 0, 0]⟩

/-! Helper lemmas about the word arithmetic and the well-formedness record. -/

theorem wsize_pos : 0 < WSIZE := by norm_num [WSIZE]

theorem wsub_eq {a b : Nat} (hb : b ≤ a) (ha : a < WSIZE) : wsub a b = a - b := by
  unfold wsub
  rw [Nat.mod_eq_of_lt ha, Nat.mod_eq_of_lt (Nat.lt_of_le_of_lt hb ha),
    Nat.add_sub_assoc hb, Nat.add_mod_left]
  exact Nat.mod_eq_of_lt (by omega)

theorem wf_lives {α : Type} {v : Vec2 α} (h : wf v = true) :
    v.start + v.size ≤ v.capacity ∧ v.capacity < WSIZE := by
  unfold wf at h
  simp only [Bool.and_eq_true, decide_eq_true_eq] at h
  exact ⟨h.1.1, h.1.2⟩

theorem wf_mem_length {α : Type} {v : Vec2 α} {l : List α}
    (h : wf v = true) (hm : v.mem = some l) : v.capacity ≤ l.length := by
  unfold wf at h
  rw [hm] at h
  simp only [Bool.and_eq_true, decide_eq_true_eq] at h
  exact h.2.1

theorem vec2_valid_of_wf {α : Type} {v : Vec2 α} (h : wf v = true) :
    vec2_valid v = true := by
  have h1 := wf_lives h
  unfold vec2_valid
  simp only [Bool.or_eq_true, decide_eq_true_eq]
  right
  omega

theorem wf_mem_none {α : Type} {v : Vec2 α} (h : wf v = true) (hm : v.mem = none) :
    v.capacity = 0 ∧ v.start = 0 := by
  unfold wf at h
  rw [hm] at h
  simp only [Bool.and_eq_true, beq_iff_eq] at h
  exact h.2

theorem length_slice {α : Type} {l : List α} {a n : Nat} (h : a + n ≤ l.length) :
    (slice l a n).length = n := by
  simp only [slice, List.length_take, List.length_drop]
  omega

theorem slice_take {α : Type} (l : List α) (a : Nat) {n m : Nat} (h : m ≤ n) :
    (slice l a n).take m = slice l a m := by
  simp only [slice, List.take_take]
  rw [Nat.min_eq_left h]

theorem slice_drop {α : Type} (l : List α) (a n m : Nat) :
    (slice l a n).drop m = slice l (a + m) (n - m) := by
  simp only [slice, List.drop_take, List.drop_drop]

theorem slice_zero {α : Type} (l : List α) (a : Nat) : slice l a 0 = [] := by
  simp [slice]

theorem slice_eq_nil_of_le {α : Type} {l : List α} {a n : Nat} (h : l.length ≤ a) :
    slice l a n = [] := by
  simp [slice, List.drop_eq_nil_of_le h]

theorem writeAt_eq {α : Type} (l xs : List α) (pos : Nat)
    (h : pos + xs.length ≤ l.length) :
    writeAt l pos xs = l.take pos ++ xs ++ l.drop (pos + xs.length) := by
  unfold writeAt
  rw [List.take_of_length_le (by omega : xs.length ≤ l.length - pos)]

/-- Content of the buffer after an in-bounds writeAt at slot start + i with
i + xs.length ≤ size: the run xs replaces the slice at logical index i. -/
theorem slice_writeAt {α : Type} (l xs : List α) (s i n : Nat)
    (hin : s + i + xs.length ≤ l.length) (hi : i + xs.length ≤ n) :
    slice (writeAt l (s + i) xs) s n =
      slice l s i ++ xs ++ slice l (s + i + xs.length) (n - i - xs.length) := by
  rw [writeAt_eq l xs (s + i) hin]
  have hlenA : (l.take (s + i)).length = s + i := by
    rw [List.length_take]
    omega
  have h2 : (l.take (s + i)).drop s = slice l s i := by
    rw [List.drop_take]
    have e : s + i - s = i := by omega
    rw [e]
    rfl
  have hlen2 : (slice l s i).length = i := length_slice (by omega)
  show slice ((l.take (s + i) ++ xs) ++ l.drop (s + i + xs.length)) s n = _
  unfold slice
  rw [List.drop_append_eq_append_drop, List.drop_append_eq_append_drop, hlenA]
  have e1 : s - (s + i) = 0 := by omega
  have e2 : s - (l.take (s + i) ++ xs).length = 0 := by
    rw [List.length_append, hlenA]
    omega
  rw [e1, e2, List.drop_zero, List.drop_zero, h2]
  rw [List.take_append_eq_append_take, List.take_append_eq_append_take, hlen2]
  rw [List.take_of_length_le (by rw [hlen2]; omega : (slice l s i).length ≤ n)]
  rw [List.take_of_length_le (by omega : xs.length ≤ n - i)]
  rw [List.length_append, hlen2]
  have e3 : n - (i + xs.length) = n - i - xs.length := by omega
  rw [e3]
  rfl

/-! Claim theorems. -/

/-- C9: insert with len == 0 always succeeds and leaves the buffer completely
unchanged, for every index idx (including idx > size), provided the buffer
passes the validity check, the value pointer is non-null and element_size is
non-zero. -/
theorem c9_insert_len_zero_noop {α : Type} (alloc : Nat → Bool) (pad : α)
    (fuel : Nat) (v : Vec2 α) (idx elSize : Nat) (vs : List α)
    (hvalid : vec2_valid v = true) (hel : elSize ≠ 0) :
    vec2_impl_insert alloc pad fuel v idx (some vs) 0 elSize = some (true, v) := by
  simp [vec2_impl_insert, hvalid, hel]

/-- Witness for C9 at a concrete input: inserting zero elements at index 3 of
the empty buffer succeeds and changes nothing, although index 3 is past the
end. -/
theorem c9_witness :
    vec2_valid (emptyVec (α := Nat)) = true ∧
      vec2_impl_insert (fun _ => true) 0 5 (emptyVec (α := Nat)) 3 (some [1]) 0 1 =
        some (true, emptyVec) :=
  ⟨by decide, c9_insert_len_zero_noop (fun _ => true) 0 5 emptyVec 3 1 [1]
    (by decide) (by decide)⟩

/-- C10: removing a run that ends at the last live element (idx + len = size
with 0 < len < size) moves no element data: the call succeeds and the only
field that changes is size, which drops by len; start, capacity and the
whole allocation contents are untouched. -/
theorem c10_tail_remove_frame {α : Type} (v : Vec2 α) (idx len : Nat)
    (wantOut : Bool) (hwf : wf v = true) (hpos : 0 < len) (hlt : len < v.size)
    (hend : idx + len = v.size) :
    (vec2_remove wantOut v idx len).1 = true ∧
      (vec2_remove wantOut v idx len).2.1 = { v with size := v.size - len } := by
  have hl := wf_lives hwf
  have hw : wsub v.size len = v.size - len := wsub_eq (by omega) (by omega)
  have h1 : ¬ (v.size < len ∨ wsub v.size len < idx) := by rw [hw]; omega
  have h2 : 0 < v.size - len := by omega
  have h3 : ¬ idx = 0 := by omega
  have h4 : ¬ idx < v.size - len := by omega
  simp only [vec2_remove, if_neg h1, if_pos hpos, if_pos h2, if_neg h3, if_neg h4]
  exact ⟨trivial, trivial⟩

/-- Witness for C10 at a concrete input: removing the last two elements of
[10, 20, 30, 40] only decrements size. -/
theorem c10_witness :
    wf (⟨4, 8, 0, 2, some [0, 0, 10, 20, 30, 40, 0, 0]⟩ : Vec2 Nat) = true ∧
      (vec2_remove true (⟨4, 8, 0, 2, some [0, 0, 10, 20, 30, 40, 0, 0]⟩ : Vec2 Nat) 2 2).1 = true ∧
      (vec2_remove true (⟨4, 8, 0, 2, some [0, 0, 10, 20, 30, 40, 0, 0]⟩ : Vec2 Nat) 2 2).2.1 =
        ⟨2, 8, 0, 2, some [0, 0, 10, 20, 30, 40, 0, 0]⟩ :=
  ⟨by decide,
    (c10_tail_remove_frame _ 2 2 true (by decide) (by decide) (by decide) (by decide)).1,
    (c10_tail_remove_frame _ 2 2 true (by decide) (by decide) (by decide) (by decide)).2⟩

/-- C6: when the request needs more room (additional exceeds the free
capacity) and either capacity + additional wraps size_t or the byte count
new_capacity * element_size overflows, reserve fails — for every allocator —
and the buffer is returned exactly untouched. -/
theorem c6_reserve_overflow_guard {α : Type} (alloc : Nat → Bool) (pad : α)
    (v : Vec2 α) (additional elSize : Nat) (hwf : wf v = true) (hel : 0 < elSize)
    (hadd : additional < WSIZE)
    (hneed : wsub v.capacity v.size < additional)
    (hover : WSIZE ≤ v.capacity + additional ∨
      WSIZE ≤ ((v.capacity + additional) % WSIZE) * elSize) :
    vec2_impl_reserve alloc pad v additional elSize = (false, v) := by
  have hl := wf_lives hwf
  have hvalid := vec2_valid_of_wf hwf
  have helne : (elSize == 0) = false := by simp; omega
  simp only [vec2_impl_reserve, hvalid, helne, Bool.not_true, Bool.or_self,
    Bool.false_or, if_false, Bool.or_false]
  simp only [vec2_reserve, if_pos hneed]
  rcases Nat.lt_or_ge (v.capacity + additional) WSIZE with hlt | hge
  · have hnc : (v.capacity + additional) % WSIZE = v.capacity + additional :=
      Nat.mod_eq_of_lt hlt
    rw [hnc]
    have hnotlt : ¬ v.capacity + additional < v.capacity := by omega
    rw [if_neg hnotlt]
    have hbyte : WSIZE ≤ (v.capacity + additional) * elSize := by
      rcases hover with h | h
      · omega
      · rwa [hnc] at h
    have hdiff : (((v.capacity + additional) * elSize) % WSIZE) / elSize ≠
        v.capacity + additional := by
      intro heq
      have hle : elSize * (v.capacity + additional) ≤
          ((v.capacity + additional) * elSize) % WSIZE := by
        calc elSize * (v.capacity + additional)
            = elSize * ((((v.capacity + additional) * elSize) % WSIZE) / elSize) := by
              rw [heq]
          _ ≤ ((v.capacity + additional) * elSize) % WSIZE := Nat.mul_div_le _ _
      have hmod : ((v.capacity + additional) * elSize) % WSIZE < WSIZE :=
        Nat.mod_lt _ wsize_pos
      have : (v.capacity + additional) * elSize = elSize * (v.capacity + additional) :=
        Nat.mul_comm _ _
      omega
    have hbne : ((((v.capacity + additional) * elSize) % WSIZE) / elSize !=
        v.capacity + additional) = true := by
      simpa using hdiff
    rw [if_pos hbne]
    simp
  · have hsub : (v.capacity + additional) % WSIZE = v.capacity + additional - WSIZE := by
      rw [Nat.mod_eq_sub_mod hge, Nat.mod_eq_of_lt (by omega)]
    have hltcap : (v.capacity + additional) % WSIZE < v.capacity := by omega
    rw [if_pos hltcap]
    simp

/-- Witness for C6 at a concrete input: on a full buffer of capacity 8,
requesting 2^64 - 4 further slots wraps size_t, so reserve fails and
returns the buffer unchanged. -/
theorem c6_witness :
    wf (⟨8, 8, 0, 0, some (List.replicate 8 (0 : Nat))⟩ : Vec2 Nat) = true ∧
      vec2_impl_reserve (fun _ => true) 0
        (⟨8, 8, 0, 0, some (List.replicate 8 (0 : Nat))⟩ : Vec2 Nat)
        (2 ^ 64 - 4) 1 =
        (false, ⟨8, 8, 0, 0, some (List.replicate 8 (0 : Nat))⟩) :=
  ⟨by decide,
    c6_reserve_overflow_guard (fun _ => true) 0 _ (2 ^ 64 - 4) 1 (by decide)
      (by decide) (by norm_num [WSIZE]) (by decide)
      (Or.inl (by norm_num [WSIZE]))⟩

/-- C7: create_hole fails and leaves the buffer unchanged when len == 0, when
idx > size, or when size + len wraps size_t; under the same circumstances
the public wrapper (on a valid buffer with non-zero element size) also fails
with the buffer unchanged. -/
theorem c7_create_hole_guard {α : Type} (alloc : Nat → Bool) (pad : α)
    (fuel : Nat) (v : Vec2 α) (idx len elSize : Nat)
    (hsz : v.size < WSIZE) (hlen : len < WSIZE)
    (h : len = 0 ∨ v.size < idx ∨ WSIZE ≤ v.size + len) :
    vec2_create_hole alloc pad fuel v idx len elSize = some (false, v) ∧
      (vec2_valid v = true → elSize ≠ 0 →
        vec2_impl_create_hole alloc pad fuel v idx len elSize = some (false, v)) := by
  have hguard : len = 0 ∨ v.size < idx ∨ (v.size + len) % WSIZE < v.size := by
    rcases h with h | h | h
    · exact Or.inl h
    · exact Or.inr (Or.inl h)
    · right; right
      have hmod : (v.size + len) % WSIZE = v.size + len - WSIZE := by
        rw [Nat.mod_eq_sub_mod h, Nat.mod_eq_of_lt (by omega)]
      have hWpos := wsize_pos
      omega
  have hcore : vec2_create_hole alloc pad fuel v idx len elSize = some (false, v) := by
    unfold vec2_create_hole
    rw [if_pos hguard]
  refine ⟨hcore, fun hvalid hel => ?_⟩
  by_cases hz : len = 0
  · simp [vec2_impl_create_hole, hz]
  · simp only [vec2_impl_create_hole, hvalid, Bool.not_true, Bool.false_or]
    have : (len == 0 || elSize == 0) = false := by
      simp only [Bool.or_eq_false_iff, beq_eq_false_iff_ne, ne_eq]
      exact ⟨hz, hel⟩
    rw [this, if_neg (by simp), hcore]

/-- Witness for C7 at a concrete input: create_hole with len = 0 on the
five-element buffer fails without mutation, through the core and the public
wrapper alike. -/
theorem c7_witness :
    vec2_create_hole (fun _ => true) 0 9 bufFive 2 0 1 = some (false, bufFive) ∧
      vec2_impl_create_hole (fun _ => true) 0 9 bufFive 2 0 1 = some (false, bufFive) :=
  ⟨(c7_create_hole_guard (fun _ => true) 0 9 bufFive 2 0 1 (by decide) (by decide)
      (Or.inl rfl)).1,
    (c7_create_hole_guard (fun _ => true) 0 9 bufFive 2 0 1 (by decide) (by decide)
      (Or.inl rfl)).2 (by decide) (by decide)⟩

/-- C1: evaluation of the code at a failing input.  Inserting the run [9] at
interior index 1 of the buffer [1, 2, 3, 4, 5] (capacity 8, no front slack)
reports success but produces logical content [1, 9, 2, 4, 5, pad] instead of
[1, 9, 2, 3, 4, 5]: the suffix memmove of _vec2_create_hole copies only
len - shift_back elements instead of the whole size - idx suffix, so the
element 3 is overwritten and the last slot exposes an uninitialised slot. -/
theorem c1_insert_content_bug :
    (vec2_impl_insert (fun _ => true) 0 64 bufFive 1 (some [9]) 1 1).map
        (fun p => (p.1, content p.2)) = some (true, [1, 9, 2, 4, 5, 0]) ∧
      ([1, 9, 2, 4, 5, 0] : List Nat) ≠ [1, 9, 2, 3, 4, 5] := by
  exact ⟨by decide, by decide⟩

/-- C8: evaluation of the code at a failing input.  On the buffer
[1, 2, 3, 4, 5], insert([6, 7]) at index 1 followed by remove(1, 2, out)
returns out = [6, 7] as the claim states, but the buffer content ends up
[1, 2, 3, pad, pad] instead of the original [1, 2, 3, 4, 5]: the insert had
already corrupted the tail, so the round trip does not restore the content. -/
theorem c8_round_trip_bug :
    (vec2_impl_insert (fun _ => true) 0 64 bufFive 1 (some [6, 7]) 2 1).map
        (fun p =>
          (p.1, (vec2_impl_remove true p.2 1 2 1).1,
            content (vec2_impl_remove true p.2 1 2 1).2.1,
            (vec2_impl_remove true p.2 1 2 1).2.2)) =
        some (true, true, [1, 2, 3, 0, 0], some [6, 7]) ∧
      ([1, 2, 3, 0, 0] : List Nat) ≠ content bufFive := by
  exact ⟨by decide, by decide⟩

/-- C3: evaluation of the code at a failing input.  shrink-to-fit on a buffer
with size = 2 and capacity = 64 succeeds and keeps the content, but the
resulting capacity is 2, not max(size, VEC2_INITIAL_CAPACITY) = 8: line 286
of cvec2.c assigns capacity = vec2_size(vec_ptr) although the reallocation
was made for new_capacity = max(size, 8) slots. -/
theorem c3_shrink_capacity_bug :
    (vec2_impl_shrink (fun _ => true) 0 bufShrink 1).1 = true ∧
      (vec2_impl_shrink (fun _ => true) 0 bufShrink 1).2.capacity = 2 ∧
      content (vec2_impl_shrink (fun _ => true) 0 bufShrink 1).2 = content bufShrink ∧
      (2 : Nat) ≠ VEC2_INITIAL_CAPACITY := by
  refine ⟨by decide, by decide, by decide, by decide⟩

/-- C4: evaluation of the code at a failing input.  Starting from the initial
zeroed buffer, a single insert of 2^32 elements of size 1 returns success
with size = 2^32 while capacity = 0 and data = NULL, violating the invariant
size <= capacity: the unsigned int variable addition truncates len to 0, so
the growth loop reserves nothing at all. -/
theorem c4_invariant_bug :
    vec2_impl_insert (fun _ => true) 0 64 (emptyVec (α := Nat)) 0 (some [])
        (2 ^ 32) 1 = some (true, ⟨2 ^ 32, 0, 0, 0, none⟩) ∧
      ¬ ((⟨2 ^ 32, 0, 0, 0, none⟩ : Vec2 Nat).size ≤
        (⟨2 ^ 32, 0, 0, 0, none⟩ : Vec2 Nat).capacity) := by
  exact ⟨by decide, by decide⟩

/-- C2 counterexample: shrink-to-fit on the buffer [5, 6] held at start
offset 1 with capacity 64, under an allocator that refuses the shrinking
realloc, returns failure — yet the buffer is not in its pre-call state: the
compaction performed before the realloc has set start to 0 and moved the
live bytes to the base of the allocation. -/
theorem c2_shrink_not_atomic :
    (vec2_impl_shrink (fun _ => false) 0 bufSlack 1).1 = false ∧
      (vec2_impl_shrink (fun _ => false) 0 bufSlack 1).2.start ≠ bufSlack.start := by
  exact ⟨by decide, by decide⟩

/-- C5: remove(idx, len, out) fails exactly when len > size or idx > size -
len; on success with len > 0 the content becomes X[0:idx] + X[idx+len:], the
size drops by exactly len, the capacity is unchanged, and a non-null out
receives exactly the removed run X[idx:idx+len]; a successful call with
len == 0 is a no-op. -/
theorem c5_remove_semantics {α : Type} (v : Vec2 α) (idx len : Nat)
    (wantOut : Bool) (hwf : wf v = true) :
    ((vec2_remove wantOut v idx len).1 = false ↔
      (v.size < len ∨ v.size - len < idx)) ∧
      ((vec2_remove wantOut v idx len).1 = true → 0 < len →
        content (vec2_remove wantOut v idx len).2.1 =
            (content v).take idx ++ (content v).drop (idx + len) ∧
          (vec2_remove wantOut v idx len).2.1.size = v.size - len ∧
          (vec2_remove wantOut v idx len).2.1.capacity = v.capacity ∧
          (wantOut = true →
            (vec2_remove wantOut v idx len).2.2 =
              some (((content v).drop idx).take len))) ∧
      ((vec2_remove wantOut v idx len).1 = true → len = 0 →
        (vec2_remove wantOut v idx len).2.1 = v ∧
          (vec2_remove wantOut v idx len).2.2 = none) := by
  obtain ⟨hls, hcap⟩ := wf_lives hwf
  by_cases hg : v.size < len ∨ wsub v.size len < idx
  · have hres : vec2_remove wantOut v idx len = (false, v, none) := by
      unfold vec2_remove
      rw [if_pos hg]
    rw [hres]
    refine ⟨?_, ?_, ?_⟩
    · constructor
      · intro _
        rcases Nat.lt_or_ge v.size len with h | h
        · exact Or.inl h
        · right
          rcases hg with h1 | h1
          · omega
          · rwa [wsub_eq h (by omega)] at h1
      · intro _
        rfl
    · intro h
      simp at h
    · intro h
      simp at h
  · have hg1 := hg
    push_neg at hg1
    obtain ⟨hlenle, hidxle⟩ := hg1
    replace hlenle : len ≤ v.size := by omega
    rw [wsub_eq hlenle (by omega)] at hidxle
    replace hidxle : idx ≤ v.size - len := by omega
    have hfst : (vec2_remove wantOut v idx len).1 = true := by
      simp only [vec2_remove, if_neg hg]
      split_ifs <;> rfl
    refine ⟨?_, ?_, ?_⟩
    · rw [hfst]
      constructor
      · intro h
        cases h
      · intro h
        exfalso
        omega
    · intro _ hlenpos
      cases hm : v.mem with
      | none =>
        obtain ⟨hc0, _⟩ := wf_mem_none hwf hm
        omega
      | some l =>
        have hll : v.capacity ≤ l.length := wf_mem_length hwf hm
        have hcontent : content v = slice l v.start v.size := by
          rw [content, hm]
          rfl
        have houtval : slice l (v.start + idx) len = ((content v).drop idx).take len := by
          rw [hcontent, slice_drop, slice_take _ _ (by omega : len ≤ v.size - idx)]
        by_cases hz : 0 < v.size - len
        · by_cases hi0 : idx = 0
          · -- front removal: start advances by len
            subst hi0
            have hres : vec2_remove wantOut v 0 len =
                (true, (⟨v.size - len, v.capacity, v.idx0, v.start + len, some l⟩ : Vec2 α),
                  if wantOut then some (slice l (v.start + 0) len) else none) := by
              simp only [vec2_remove, if_neg hg, if_pos hlenpos, hm, Option.getD_some,
                if_pos hz, if_pos rfl, if_true]
            rw [hres]
            refine ⟨?_, rfl, rfl, ?_⟩
            · show slice l (v.start + len) (v.size - len) =
                (content v).take 0 ++ (content v).drop (0 + len)
              rw [hcontent, List.take_zero, List.nil_append, Nat.zero_add, slice_drop]
            · intro hw
              rw [hw, if_pos rfl, houtval]
          · by_cases hint : idx < v.size - len
            · -- interior removal: suffix shifted back by len
              have hres : vec2_remove wantOut v idx len =
                  (true, (⟨v.size - len, v.capacity, v.idx0, v.start,
                      some (memmoveSlots l (v.start + idx) (v.start + idx + len)
                        (v.size - len - idx))⟩ : Vec2 α),
                    if wantOut then some (slice l (v.start + idx) len) else none) := by
                simp only [vec2_remove, if_neg hg, if_pos hlenpos, hm, Option.getD_some,
                  if_pos hz, if_neg hi0, if_pos hint, Option.map_some']
              rw [hres]
              refine ⟨?_, rfl, rfl, ?_⟩
              · show slice (memmoveSlots l (v.start + idx) (v.start + idx + len)
                    (v.size - len - idx)) v.start (v.size - len) =
                  (content v).take idx ++ (content v).drop (idx + len)
                unfold memmoveSlots
                have hxslen : (slice l (v.start + idx + len) (v.size - len - idx)).length =
                    v.size - len - idx := length_slice (by omega)
                rw [slice_writeAt l _ v.start idx (v.size - len)
                  (by rw [hxslen]; omega) (by rw [hxslen]; omega)]
                rw [hxslen]
                rw [hcontent, slice_take _ _ (by omega : idx ≤ v.size), slice_drop]
                have e3 : v.size - (idx + len) = v.size - len - idx := by omega
                have e4 : v.start + (idx + len) = v.start + idx + len := by omega
                rw [e3, e4]
                have e1 : v.size - len - idx - (v.size - len - idx) = 0 := by omega
                have hnil : slice l (v.start + idx + (v.size - len - idx))
                    (v.size - len - idx - (v.size - len - idx)) = [] := by
                  rw [e1]
                  exact slice_zero _ _
                rw [hnil, List.append_nil]
              · intro hw
                rw [hw, if_pos rfl, houtval]
            · -- tail removal: no data movement
              have hres : vec2_remove wantOut v idx len =
                  (true, (⟨v.size - len, v.capacity, v.idx0, v.start, some l⟩ : Vec2 α),
                    if wantOut then some (slice l (v.start + idx) len) else none) := by
                simp only [vec2_remove, if_neg hg, if_pos hlenpos, hm, Option.getD_some,
                  if_pos hz, if_neg hi0, if_neg hint]
              rw [hres]
              have hieq : idx = v.size - len := by omega
              refine ⟨?_, rfl, rfl, ?_⟩
              · show slice l v.start (v.size - len) =
                  (content v).take idx ++ (content v).drop (idx + len)
                rw [hcontent, slice_take _ _ (by omega : idx ≤ v.size)]
                have hdropnil : ((l.drop v.start).take v.size).drop (idx + len) = [] := by
                  apply List.drop_eq_nil_of_le
                  rw [List.length_take]
                  omega
                show slice l v.start (v.size - len) =
                  slice l v.start idx ++ ((l.drop v.start).take v.size).drop (idx + len)
                rw [hdropnil, List.append_nil, hieq]
              · intro hw
                rw [hw, if_pos rfl, houtval]
        · -- the whole remaining content is removed: len = size and idx = 0
          have hlen_eq : len = v.size := by omega
          have hidx0 : idx = 0 := by omega
          have hres : vec2_remove wantOut v idx len =
              (true, (⟨v.size - len, v.capacity, v.idx0, v.start, some l⟩ : Vec2 α),
                if wantOut then some (slice l (v.start + idx) len) else none) := by
            simp only [vec2_remove, if_neg hg, if_pos hlenpos, hm, Option.getD_some,
              if_neg hz]
          rw [hres]
          refine ⟨?_, rfl, rfl, ?_⟩
          · show slice l v.start (v.size - len) =
              (content v).take idx ++ (content v).drop (idx + len)
            have e0 : v.size - len = 0 := by omega
            rw [e0, slice_zero, hcontent, hidx0, List.take_zero, List.nil_append,
              Nat.zero_add, hlen_eq]
            have hnil : (slice l v.start v.size).drop v.size = [] := by
              apply List.drop_eq_nil_of_le
              simp only [slice, List.length_take, List.length_drop]
              omega
            rw [hnil]
          · intro hw
            rw [hw, if_pos rfl, houtval]
    · intro _ hlen0
      subst hlen0
      have hres : vec2_remove wantOut v idx 0 = (true, v, none) := by
        simp only [vec2_remove, if_neg hg]
        rfl
      rw [hres]
      exact ⟨rfl, rfl⟩

/-- Witness for C5 at a concrete input: removing two elements at index 1 of
[1, 2, 3, 4, 5] succeeds with content [1, 4, 5], size 3, capacity 8, and the
out run [2, 3]. -/
theorem c5_witness :
    wf bufFive = true ∧
      (vec2_remove true bufFive 1 2).1 = true ∧
      content (vec2_remove true bufFive 1 2).2.1 = [1, 4, 5] ∧
      (vec2_remove true bufFive 1 2).2.2 = some [2, 3] := by
  have h := c5_remove_semantics bufFive 1 2 true (by decide)
  have h1 : (vec2_remove true bufFive 1 2).1 = true := by
    rcases Bool.eq_false_or_eq_true (vec2_remove true bufFive 1 2).1 with ht | hf
    · exact ht
    · exact absurd (h.1.mp hf) (by decide)
  have h2 := h.2.1 h1 (by decide)
  refine ⟨by decide, h1, ?_, ?_⟩
  · rw [h2.1]
    decide
  · rw [h2.2.2.2 rfl]
    decide

/-! Failure paths of the individual operations.  _vec2_reserve mutates the
buffer only after a successful realloc, so every reported failure leaves the
state it received; the same propagates through the retry loop and the
wrappers.  The shrink path is the exception: it may compact before its
realloc fails. -/

theorem ite_pair_false {c : Prop} [Decidable c] {β : Type} {a b v1 : β}
    (h : (if c then ((true : Bool), a) else (false, b)) = (false, v1)) : v1 = b := by
  by_cases hc : c
  · rw [if_pos hc] at h
    exact absurd (congrArg Prod.fst h) (by simp)
  · rw [if_neg hc] at h
    exact (congrArg Prod.snd h).symm

theorem vec2_reserve_fail {α : Type} {alloc : Nat → Bool} {pad : α}
    {v v1 : Vec2 α} {a e : Nat}
    (h : vec2_reserve alloc pad v a e = (false, v1)) : v1 = v := by
  simp only [vec2_reserve] at h
  split_ifs at h <;> simp_all

theorem reserveRetry_fail {α : Type} {alloc : Nat → Bool} {pad : α} {len e : Nat} :
    ∀ {fuel : Nat} {v v1 : Vec2 α} {addition : Nat},
      reserveRetry alloc pad len e fuel v addition = some (false, v1) → v1 = v := by
  intro fuel
  induction fuel with
  | zero =>
    intro v v1 addition h
    simp [reserveRetry] at h
  | succ n ih =>
    intro v v1 addition h
    rw [reserveRetry] at h
    cases hr : vec2_reserve alloc pad v addition e with
    | mk b v2 =>
      rw [hr] at h
      cases b
      · simp only at h
        split_ifs at h
        · exact ih h
        · simp only [Option.some.injEq, Prod.mk.injEq, true_and] at h
          exact h.symm
        · exact ih h
      · simp at h

theorem vec2_create_hole_fail {α : Type} {alloc : Nat → Bool} {pad : α}
    {fuel : Nat} {v v1 : Vec2 α} {idx len e : Nat}
    (h : vec2_create_hole alloc pad fuel v idx len e = some (false, v1)) : v1 = v := by
  unfold vec2_create_hole at h
  split_ifs at h with h1 h2
  · simp only [Option.some.injEq, Prod.mk.injEq, true_and] at h
    exact h.symm
  · cases hga : growAddition len fuel (growStart v.capacity) with
    | none =>
      rw [hga] at h
      simp at h
    | some addition =>
      rw [hga] at h
      simp only at h
      cases hrr : reserveRetry alloc pad len e fuel v addition with
      | none =>
        rw [hrr] at h
        simp at h
      | some p =>
        rw [hrr] at h
        cases p with
        | mk b v2 =>
          cases b
          · simp only [Option.some.injEq, Prod.mk.injEq, true_and] at h
            have := reserveRetry_fail hrr
            rw [← h]
            exact this
          · simp at h
  · simp at h

theorem vec2_impl_reserve_fail {α : Type} {alloc : Nat → Bool} {pad : α}
    {v v1 : Vec2 α} {a e : Nat}
    (h : vec2_impl_reserve alloc pad v a e = (false, v1)) : v1 = v := by
  unfold vec2_impl_reserve at h
  split_ifs at h
  · simp only [Prod.mk.injEq, true_and] at h
    exact h.symm
  · exact vec2_reserve_fail h

theorem vec2_impl_create_hole_fail {α : Type} {alloc : Nat → Bool} {pad : α}
    {fuel : Nat} {v v1 : Vec2 α} {idx len e : Nat}
    (h : vec2_impl_create_hole alloc pad fuel v idx len e = some (false, v1)) :
    v1 = v := by
  unfold vec2_impl_create_hole at h
  split_ifs at h
  · simp only [Option.some.injEq, Prod.mk.injEq, true_and] at h
    exact h.symm
  · cases hch : vec2_create_hole alloc pad fuel v idx len e with
    | none =>
      rw [hch] at h
      simp at h
    | some p =>
      rw [hch] at h
      cases p with
      | mk b v2 =>
        cases b
        · simp only [Option.some.injEq, Prod.mk.injEq, true_and] at h
          rw [← h]
          exact vec2_create_hole_fail hch
        · simp at h

theorem vec2_impl_insert_fail {α : Type} {alloc : Nat → Bool} {pad : α}
    {fuel : Nat} {v v1 : Vec2 α} {idx len e : Nat} {val : Option (List α)}
    (h : vec2_impl_insert alloc pad fuel v idx val len e = some (false, v1)) :
    v1 = v := by
  unfold vec2_impl_insert at h
  split_ifs at h
  · simp only [Option.some.injEq, Prod.mk.injEq, true_and] at h
    exact h.symm
  · cases hch : vec2_create_hole alloc pad fuel v idx len e with
    | none =>
      rw [hch] at h
      simp at h
    | some p =>
      rw [hch] at h
      cases p with
      | mk b v2 =>
        cases b
        · simp only [Option.some.injEq, Prod.mk.injEq, true_and] at h
          rw [← h]
          exact vec2_create_hole_fail hch
        · simp at h
  · simp at h

theorem vec2_impl_swap_fail {α : Type} {v v1 : Vec2 α} {i j e : Nat}
    (h : vec2_impl_swap v i j e = (false, v1)) : v1 = v := by
  unfold vec2_impl_swap at h
  split_ifs at h <;> simp_all

theorem vec2_impl_sort_fail {α : Type} {cmp : Option (α → α → Int)}
    {v v1 : Vec2 α} {e : Nat}
    (h : vec2_impl_sort cmp v e = (false, v1)) : v1 = v := by
  unfold vec2_impl_sort at h
  split_ifs at h <;> simp_all

theorem vec2_impl_assign_fail {α : Type} {v v1 : Vec2 α} {idx len e : Nat}
    {val : Option (List α)}
    (h : vec2_impl_assign v idx val len e = (false, v1)) : v1 = v := by
  unfold vec2_impl_assign at h
  split_ifs at h <;> simp_all

theorem vec2_impl_remove_fail {α : Type} {wantOut : Bool} {v v1 : Vec2 α}
    {idx len e : Nat} {o : Option (List α)}
    (h : vec2_impl_remove wantOut v idx len e = (false, v1, o)) : v1 = v := by
  unfold vec2_impl_remove at h
  split_ifs at h
  · simp only [Prod.mk.injEq, true_and] at h
    exact h.1.symm
  · unfold vec2_remove at h
    split_ifs at h <;> simp_all

theorem vec2_impl_shrink_fail {α : Type} {alloc : Nat → Bool} {pad : α}
    {v v1 : Vec2 α} {e : Nat}
    (h : vec2_impl_shrink alloc pad v e = (false, v1)) :
    v1 = v ∨ (0 < v.start ∧
      v1 = ⟨v.size, v.capacity, v.idx0, 0,
        v.mem.map fun l => memmoveSlots l 0 v.start v.size⟩) := by
  unfold vec2_impl_shrink at h
  split_ifs at h with h1 h2 h3 h4 h5 h6
  · exact Or.inl (congrArg Prod.snd h).symm
  · exact absurd (congrArg Prod.fst h) (by simp)
  · exact Or.inr ⟨h5, ite_pair_false h⟩
  · exact Or.inl (ite_pair_false h)
  · exact Or.inr ⟨h6, ite_pair_false h⟩
  · exact Or.inl (ite_pair_false h)
  · exact absurd (congrArg Prod.fst h) (by simp)

/-- Content is preserved by the compaction that shrink performs before its
realloc: the live run is moved to the base of the allocation and start is
reset to 0. -/
theorem content_compact {α : Type} {v : Vec2 α} (hwf : wf v = true) :
    content (⟨v.size, v.capacity, v.idx0, 0,
      v.mem.map fun l => memmoveSlots l 0 v.start v.size⟩ : Vec2 α) = content v := by
  obtain ⟨hls, _⟩ := wf_lives hwf
  cases hm : v.mem with
  | none =>
    simp [content, slice, hm]
  | some l =>
    have hll : v.capacity ≤ l.length := wf_mem_length hwf hm
    have hxlen : (slice l v.start v.size).length = v.size := length_slice (by omega)
    have hw := slice_writeAt l (slice l v.start v.size) 0 0 v.size
      (by simpa [hxlen] using (by omega : v.size ≤ l.length))
      (by rw [hxlen]; omega)
    simp only [content, hm, Option.map_some', Option.getD_some, memmoveSlots]
    show slice (writeAt l 0 (slice l v.start v.size)) 0 v.size = slice l v.start v.size
    simpa [slice_zero, hxlen] using hw

/-- C2 amended: every public operation that reports failure leaves the size,
the capacity, the _idx scratch field and the logical content exactly as they
were; every operation other than shrink-to-fit leaves the whole state
untouched, while a failing shrink-to-fit on a buffer with front slack may
additionally have compacted the live elements to the base of the allocation
(start becomes 0 and the data pointer moves to the base) before its
reallocation failed. -/
theorem c2_failure_atomicity {α : Type} (alloc : Nat → Bool) (pad : α)
    (fuel : Nat) (v v1 : Vec2 α) (op : Op α) (hwf : wf v = true)
    (hfail : stepOp alloc pad fuel v op = some (false, v1)) :
    v1.size = v.size ∧ v1.capacity = v.capacity ∧ v1.idx0 = v.idx0 ∧
      content v1 = content v ∧
      ((∀ e : Nat, op ≠ Op.shrinkOp e) → v1 = v) ∧
      (v1 = v ∨ (0 < v.start ∧ v1.start = 0 ∧
        v1.mem = v.mem.map fun l => memmoveSlots l 0 v.start v.size)) := by
  cases op with
  | reserveOp a e =>
    have h : vec2_impl_reserve alloc pad v a e = (false, v1) := by
      simp only [stepOp, Option.some.injEq] at hfail
      exact hfail
    have hv := vec2_impl_reserve_fail h
    subst hv
    exact ⟨rfl, rfl, rfl, rfl, fun _ => rfl, Or.inl rfl⟩
  | shrinkOp e =>
    have h : vec2_impl_shrink alloc pad v e = (false, v1) := by
      simp only [stepOp, Option.some.injEq] at hfail
      cases hres : vec2_impl_shrink alloc pad v e with
      | mk b u =>
        rw [hres] at hfail
        simp only [Prod.mk.injEq] at hfail
        rw [hfail.1, hfail.2]
    rcases vec2_impl_shrink_fail h with hv | ⟨hst, hv⟩
    · subst hv
      exact ⟨rfl, rfl, rfl, rfl, fun _ => rfl, Or.inl rfl⟩
    · subst hv
      refine ⟨rfl, rfl, rfl, content_compact hwf, ?_, Or.inr ⟨hst, rfl, rfl⟩⟩
      intro hne
      exact absurd rfl (hne e)
  | createHoleOp idx len e =>
    have hv := vec2_impl_create_hole_fail (by simpa [stepOp] using hfail)
    subst hv
    exact ⟨rfl, rfl, rfl, rfl, fun _ => rfl, Or.inl rfl⟩
  | insertOp idx val len e =>
    have hv := vec2_impl_insert_fail (by simpa [stepOp] using hfail)
    subst hv
    exact ⟨rfl, rfl, rfl, rfl, fun _ => rfl, Or.inl rfl⟩
  | removeOp w idx len e =>
    have h : (vec2_impl_remove w v idx len e).1 = false ∧
        (vec2_impl_remove w v idx len e).2.1 = v1 := by
      simp only [stepOp, Option.some.injEq, Prod.mk.injEq] at hfail
      exact hfail
    have hv : v1 = v := by
      have h2 := h.2
      cases hres : vec2_impl_remove w v idx len e with
      | mk b p =>
        cases p with
        | mk u o =>
          rw [hres] at h h2
          simp only at h h2
          rw [← h2]
          exact vec2_impl_remove_fail (by rw [hres, h.1])
    subst hv
    exact ⟨rfl, rfl, rfl, rfl, fun _ => rfl, Or.inl rfl⟩
  | swapOp i j e =>
    have h : vec2_impl_swap v i j e = (false, v1) := by
      simp only [stepOp, Option.some.injEq] at hfail
      cases hres : vec2_impl_swap v i j e with
      | mk b u =>
        rw [hres] at hfail
        simp only [Prod.mk.injEq] at hfail
        rw [hfail.1, hfail.2]
    have hv := vec2_impl_swap_fail h
    subst hv
    exact ⟨rfl, rfl, rfl, rfl, fun _ => rfl, Or.inl rfl⟩
  | sortOp cmp e =>
    have h : vec2_impl_sort cmp v e = (false, v1) := by
      simp only [stepOp, Option.some.injEq] at hfail
      cases hres : vec2_impl_sort cmp v e with
      | mk b u =>
        rw [hres] at hfail
        simp only [Prod.mk.injEq] at hfail
        rw [hfail.1, hfail.2]
    have hv := vec2_impl_sort_fail h
    subst hv
    exact ⟨rfl, rfl, rfl, rfl, fun _ => rfl, Or.inl rfl⟩
  | assignOp idx val len e =>
    have h : vec2_impl_assign v idx val len e = (false, v1) := by
      simp only [stepOp, Option.some.injEq] at hfail
      cases hres : vec2_impl_assign v idx val len e with
      | mk b u =>
        rw [hres] at hfail
        simp only [Prod.mk.injEq] at hfail
        rw [hfail.1, hfail.2]
    have hv := vec2_impl_assign_fail h
    subst hv
    exact ⟨rfl, rfl, rfl, rfl, fun _ => rfl, Or.inl rfl⟩

/-- Witness for C2 at a concrete input: a reserve request of one slot on the
empty buffer under an allocator that always fails reports failure and leaves
the state untouched. -/
theorem c2_witness :
    wf (emptyVec (α := Nat)) = true ∧
      stepOp (fun _ => false) (0 : Nat) 3 emptyVec (Op.reserveOp 1 1) =
        some (false, emptyVec) ∧
      content (emptyVec (α := Nat)) = content emptyVec :=
  ⟨by decide, by decide,
    (c2_failure_atomicity (fun _ => false) 0 3 emptyVec emptyVec
      (Op.reserveOp 1 1) (by decide) (by decide)).2.2.2.1⟩

end Cvec2
